import Mathlib

/-!
Verification of the markdown profile-extraction core of the scraper
(`src/scraper.ts`).  The JavaScript parsing functions are shallowly
embedded as total Lean functions over `List Char` (the contents of a
`String`).  Every regular expression of the source is transcribed as a
deterministic scanner whose backtracking behaviour matches the
JavaScript engine on the pattern in question; the one partial JavaScript
operation (`lines[0].trim()` on a possibly-empty array, inside the
headline heuristic of `scrapeLinkedInProfile`) is modelled with
`Option`, `none` standing for the thrown `TypeError`.
-/

/-- JavaScript `\s` / `trim` whitespace predicate (WhiteSpace plus line
terminators). -/
def wsChar (c : Char) : Bool :=
  c = ' ' || c = '\t' || c = '\n' || c = '\r' ||
  c.val = 11 || c.val = 12 || c.val = 0xa0 || c.val = 0x1680 ||
  (0x2000 ≤ c.val && c.val ≤ 0x200a) || c.val = 0x2028 || c.val = 0x2029 ||
  c.val = 0x202f || c.val = 0x205f || c.val = 0x3000 || c.val = 0xfeff

/-- Characters that the JavaScript `.` (dot without the `s` flag) does not
match: the line terminators. -/
def lineTerm (c : Char) : Bool :=
  c = '\n' || c = '\r' || c.val = 0x2028 || c.val = 0x2029

/-- JavaScript `String.prototype.trim` on a character list. -/
def jsTrimL (l : List Char) : List Char :=
  ((l.dropWhile wsChar).reverse.dropWhile wsChar).reverse

/-- ASCII lower-casing, the case folding relevant to the `/i` flags of the
source (all case-insensitive literals there are ASCII). -/
def lowAscii (c : Char) : Char :=
  if 'A' ≤ c ∧ c ≤ 'Z' then Char.ofNat (c.toNat + 32) else c

/-- `pat` is a prefix of `l` (character-exact). -/
def isPrefixL : List Char → List Char → Bool
  | [], _ => true
  | _ :: _, [] => false
  | p :: ps, c :: cs => p = c && isPrefixL ps cs

/-- JavaScript `String.prototype.includes`: `pat` occurs inside `hay`. -/
def hasSub (pat : List Char) : List Char → Bool
  | [] => isPrefixL pat []
  | l@(_ :: rest) => isPrefixL pat l || hasSub pat rest

/-- Consume the literal `pat` at the front of `l`, returning the rest. -/
def dropLit : List Char → List Char → Option (List Char)
  | [], l => some l
  | _ :: _, [] => none
  | p :: ps, c :: cs => if p = c then dropLit ps cs else none

/-- Consume the literal `pat` case-insensitively (ASCII) at the front of
`l`, returning the rest. -/
def dropLitCI : List Char → List Char → Option (List Char)
  | [], l => some l
  | _ :: _, [] => none
  | p :: ps, c :: cs => if lowAscii p = lowAscii c then dropLitCI ps cs else none

/-- JavaScript `String.prototype.split` on a single-character class:
cut at every character satisfying `p`, keeping empty fragments. -/
def splitPred (p : Char → Bool) : List Char → List (List Char)
  | [] => [[]]
  | c :: rest =>
    if p c then [] :: splitPred p rest
    else
      match splitPred p rest with
      | s :: ss => (c :: s) :: ss
      | [] => [[c]]

/-- Fuel-driven worker for `splitLit`; the fuel (initially the input
length) only guards termination and is never exhausted for the non-empty
separators used by the source. -/
def splitLitF (sep : List Char) : Nat → List Char → List (List Char)
  | _, [] => [[]]
  | 0, l => [l]
  | fuel + 1, l@(c :: rest) =>
    match dropLit sep l with
    | some r => [] :: splitLitF sep fuel r
    | none =>
      match splitLitF sep fuel rest with
      | s :: ss => (c :: s) :: ss
      | [] => [[c]]

/-- JavaScript `String.prototype.split` on a literal separator
(leftmost, non-overlapping). -/
def splitLit (sep : List Char) (l : List Char) : List (List Char) :=
  splitLitF sep l.length l

/-- `replace(/\*\*/g, "")`: remove every non-overlapping occurrence of
`**`, scanning left to right. -/
def stripBold : List Char → List Char
  | '*' :: '*' :: rest => stripBold rest
  | c :: rest => c :: stripBold rest
  | [] => []

/-- First-occurrence deduplication (`[...new Set(xs)]`), generalized over
the set of already-seen values. -/
def dedupFirstGo {α : Type} [DecidableEq α] (seen : List α) : List α → List α
  | [] => []
  | x :: xs =>
    if x ∈ seen then dedupFirstGo seen xs
    else x :: dedupFirstGo (x :: seen) xs

/-- `[...new Set(xs)]`: keep the first occurrence of each value, in order. -/
def dedupFirst {α : Type} [DecidableEq α] (l : List α) : List α :=
  dedupFirstGo [] l

/-! ## Section locator

Embeds the seven `text.match(/## (alias|…)\n([\s\S]*?)(?=\n## |$)/i)`
section regexes: scan for the leftmost position where `## ` followed by
one of the aliases (case-insensitively) and a newline matches, and return
the lazily-captured body, which extends to the first following `\n## `
or to the end of the document. -/

/-- Try each header alias in the regex's alternation order; an alias match
must be followed by a newline, otherwise the next alternative is tried. -/
def tryAliases : List (List Char) → List Char → Option (List Char)
  | [], _ => none
  | a :: as, l =>
    match dropLitCI a l with
    | some ('\n' :: rest) => some rest
    | _ => tryAliases as l

/-- The lazy body capture `([\s\S]*?)(?=\n## |$)`: everything up to (but
excluding) the first `\n## `, or the whole rest of the document. -/
def takeBody : List Char → List Char
  | [] => []
  | l@(c :: rest) => if isPrefixL ("\n## ".data) l then [] else c :: takeBody rest

/-- Match `## <alias>\n` at the current position. -/
def headerAt (aliases : List (List Char)) (l : List Char) : Option (List Char) :=
  match dropLit ("## ".data) l with
  | some r => tryAliases aliases r
  | none => none

/-- Leftmost scan for a section header; returns the section body. -/
def findSection (aliases : List (List Char)) : List Char → Option (List Char)
  | [] => none
  | l@(_ :: rest) =>
    match headerAt aliases l with
    | some r => some (takeBody r)
    | none => findSection aliases rest

def expAliases : List (List Char) := ["Work Experience".data, "Experience".data]
def eduAliases : List (List Char) := ["Education".data]
def projAliases : List (List Char) := ["Projects".data, "Project".data]
def volAliases : List (List Char) :=
  ["Volunteering".data, "Volunteer".data, "Volunteer Experience".data]
def skillsAliases : List (List Char) := ["Skills".data, "Skill".data]
def interestsAliases : List (List Char) :=
  ["Interests".data, "Interest".data, "Following".data, "Groups".data,
   "Group".data, "Companies Followed".data, "Companie Followed".data]
def aboutAliases : List (List Char) := ["About me".data, "About".data, "Summary".data]

/-! ## Entry splitter

Embeds the `section.split(<entry regex>)` calls followed by
`.filter(e => e.trim())`.  A separator matcher takes a flag saying
whether the current position is the start of the body (needed by the `^`
alternative of the education separator) and returns the remainder after
a successful separator match. -/

/-- Fuel-driven split on a separator matcher, one scan position per step
(JavaScript `split` with a regex separator: leftmost, non-overlapping). -/
def splitSepGo (sep : Bool → List Char → Option (List Char)) :
    Nat → Bool → List Char → List Char → List (List Char)
  | 0, _, acc, l => [acc.reverse ++ l]
  | fuel + 1, first, acc, l =>
    match sep first l with
    | some rest => acc.reverse :: splitSepGo sep fuel false [] rest
    | none =>
      match l with
      | [] => [acc.reverse]
      | c :: rest => splitSepGo sep fuel false (c :: acc) rest

/-- `body.split(sepRegex)`. -/
def splitSep (sep : Bool → List Char → Option (List Char)) (l : List Char) :
    List (List Char) :=
  splitSepGo sep (l.length + 1) true [] l

/-- Whether the separator matches anywhere in `l` (starting with the
start-of-body flag `first`). -/
def sepOccursGo (sep : Bool → List Char → Option (List Char)) (first : Bool) :
    List Char → Bool
  | [] => (sep first []).isSome
  | l@(_ :: rest) => (sep first l).isSome || sepOccursGo sep false rest

/-- The entry blocks of a section: split at the separator, then drop
whitespace-only fragments (`.filter(e => e.trim())`). -/
def entryBlocks (sep : Bool → List Char → Option (List Char)) (l : List Char) :
    List (List Char) :=
  (splitSep sep l).filter (fun b => !(jsTrimL b).isEmpty)

/-- Experience separator: the literal `"- ### "`. -/
def expSep (_ : Bool) (l : List Char) : Option (List Char) :=
  dropLit ("- ### ".data) l

/-- Projects/volunteering separator, the regex dash-space then
`(?:###|\*\*)` then space: the literal `"- ### "` or `"- ** "`. -/
def pvSep (_ : Bool) (l : List Char) : Option (List Char) :=
  match dropLit ("- ### ".data) l with
  | some r => some r
  | none => dropLit ("- ** ".data) l

/-- The `(?:-\s*)?###\s+` tail of the education separator: an optional
dash (with any following whitespace), then `###` and at least one
whitespace character, greedily consumed. -/
def eduSepTail (l : List Char) : Option (List Char) :=
  match l with
  | '-' :: rest =>
    match eduSepHash (rest.dropWhile wsChar) with
    | some r => some r
    | none => eduSepHash l
  | _ => eduSepHash l
where
  /-- `###\s+`. -/
  eduSepHash : List Char → Option (List Char)
  | '#' :: '#' :: '#' :: c :: rest =>
      if wsChar c then some (rest.dropWhile wsChar) else none
  | _ => none

/-- Education separator `/(?:^|\n)(?:-\s*)?###\s+/`: the `^` alternative
only applies at the start of the body, the `\n` alternative anywhere. -/
def eduSep (first : Bool) (l : List Char) : Option (List Char) :=
  match (if first then eduSepTail l else none) with
  | some r => some r
  | none =>
    match l with
    | '\n' :: rest => eduSepTail rest
    | _ => none

/-! ## Shared matcher machinery for the entry regexes -/

/-- The lazy leading capture `^(.+?)` of the `"<x> at <y>"` matchers:
consume one non-line-terminator character at a time (shortest first) and
try the continuation `tail` after it; the first success wins. -/
def lazyDotGo {α : Type} (tail : List Char → Option α) (acc : List Char) :
    List Char → Option (List Char × α)
  | [] => none
  | c :: rest =>
    if lineTerm c then none
    else
      match tail rest with
      | some a => some ((c :: acc).reverse, a)
      | none => lazyDotGo tail (c :: acc) rest

/-- `^(.+?)<tail>`, anchored at the start of the entry. -/
def lazyDot {α : Type} (tail : List Char → Option α) (l : List Char) :
    Option (List Char × α) :=
  lazyDotGo tail [] l

/-- Backtracking for `\s*(<span>)` where the span is a greedy
one-or-more class excluding `excl`: the greedy `\s*` first consumes the
whole whitespace run (length `j`), then backs off; a start position
works when its character exists and is not excluded.  Returns the number
of whitespace characters consumed and the captured span. -/
def wsSpanGo (excl : Char → Bool) (l : List Char) : Nat → Option (Nat × List Char)
  | 0 =>
    match l with
    | c :: _ => if excl c then none else some (0, l.takeWhile (fun x => !excl x))
    | [] => none
  | j + 1 =>
    match l.drop (j + 1) with
    | c :: _ =>
      if excl c then wsSpanGo excl l j
      else some (j + 1, (l.drop (j + 1)).takeWhile (fun x => !excl x))
    | [] => wsSpanGo excl l j

/-- `\s*([^<excl>]+)` with JavaScript backtracking. -/
def wsSpan (excl : Char → Bool) (l : List Char) : Option (Nat × List Char) :=
  wsSpanGo excl l (l.takeWhile wsChar).length

/-- Try a list of case-insensitive labels (in alternation order), each
followed by a colon; returns the matched text (original case, colon
included) and the remainder. -/
def tryLabels : List (List Char) → List Char → Option (List Char × List Char)
  | [], _ => none
  | p :: ps, l =>
    match dropLitCI p l with
    | some (':' :: rest) => some (l.take (p.length + 1), rest)
    | _ => tryLabels ps l

/-! ## Record types (`types.ts`) -/

structure EducationEntry where
  school : String
  degree : Option String
  fieldOfStudy : Option String
  dateRange : Option String
  schoolUrl : Option String
deriving DecidableEq

structure ProjectEntry where
  name : String
  description : Option String
  dateRange : Option String
  associatedWith : Option String
deriving DecidableEq

structure VolunteerEntry where
  role : String
  organization : String
  cause : Option String
  dateRange : Option String
  organizationUrl : Option String
deriving DecidableEq

/-- The assembled profile record (the fields of `ProfileData` produced by
the parsing core; the pass-through `url`/`image` fields are omitted). -/
structure ProfileData where
  name : String
  headline : String
  about : String
  experience : List String
  education : List EducationEntry
  projects : List ProjectEntry
  volunteering : List VolunteerEntry
  skills : List String
  interests : List String
deriving DecidableEq

/-! ## Field matchers for the entry regexes -/

/-- Tail of the experience linked matcher
`^(.+?) at \[([^\]]+)\]\(([^\)]+)\)` after the lazy group: literal
`" at ["`, a non-empty label, `"]("`, a non-empty url, `")"`. -/
def expLinkedTail (l : List Char) : Option (List Char × List Char) :=
  match dropLit (" at [".data) l with
  | none => none
  | some r =>
    match r.takeWhile (fun c => c != ']'), r.dropWhile (fun c => c != ']') with
    | [], _ => none
    | lbl, ']' :: '(' :: r2 =>
      match r2.takeWhile (fun c => c != ')'), r2.dropWhile (fun c => c != ')') with
      | [], _ => none
      | url, ')' :: _ => some (lbl, url)
      | _, _ => none
    | _, _ => none

/-- Tail of the plain matcher `^(.+?) at ([^\n]+)` (experience and
volunteering): literal `" at "` then a non-empty run of non-newline
characters. -/
def expPlainTail (l : List Char) : Option (List Char) :=
  match dropLit (" at ".data) l with
  | none => none
  | some r =>
    match r.takeWhile (fun c => c != '\n') with
    | [] => none
    | g => some g

/-- Tail of the volunteering linked matcher
`^(.+?) at \[([^\]]+)\]\((https:\/\/[^\)]+)\)`: like the experience one
but the url must start with `https://`. -/
def volLinkedTail (l : List Char) : Option (List Char × List Char) :=
  match dropLit (" at [".data) l with
  | none => none
  | some r =>
    match r.takeWhile (fun c => c != ']'), r.dropWhile (fun c => c != ']') with
    | [], _ => none
    | lbl, ']' :: '(' :: r2 =>
      match dropLit ("https://".data) r2 with
      | none => none
      | some r3 =>
        match r3.takeWhile (fun c => c != ')'), r3.dropWhile (fun c => c != ')') with
        | [], _ => none
        | rest4, ')' :: _ => some (lbl, "https://".data ++ rest4)
        | _, _ => none
    | _, _ => none

/-- Tail of education tier 1 `^(.+?)\s+at\s+\[([^\]]+)\]\(([^\)]*)\)`:
whitespace runs around `at` (forced maximal because `a` and `[` are not
whitespace), then a link whose url may be empty.  Returns (label, url). -/
def eduF1Tail (l : List Char) : Option (List Char × List Char) :=
  if (l.takeWhile wsChar).isEmpty then none
  else
    match dropLit ("at".data) (l.dropWhile wsChar) with
    | none => none
    | some r2 =>
      if (r2.takeWhile wsChar).isEmpty then none
      else
        match r2.dropWhile wsChar with
        | '[' :: r3 =>
          match r3.takeWhile (fun c => c != ']'), r3.dropWhile (fun c => c != ']') with
          | [], _ => none
          | lbl, ']' :: '(' :: r4 =>
            match r4.dropWhile (fun c => c != ')') with
            | ')' :: _ => some (lbl, r4.takeWhile (fun c => c != ')'))
            | _ => none
          | _, _ => none
        | _ => none

/-- Education tier 1 matcher (whole regex, with the lazy `^(.+?)`).
Returns (degree-and-field, label, url). -/
def eduF1 (l : List Char) : Option (List Char × List Char × List Char) :=
  (lazyDot eduF1Tail l).map fun p => (p.1, p.2.1, p.2.2)

/-- Tail of education tier 2 `^(.+?)\s+at\s+([^\n\[]+)`: the second
`\s+` backtracks into the whitespace run when the first non-whitespace
character after it is `[` (the capture may then start on a whitespace
character that is not a newline). -/
def eduF2Tail (l : List Char) : Option (List Char) :=
  if (l.takeWhile wsChar).isEmpty then none
  else
    match dropLit ("at".data) (l.dropWhile wsChar) with
    | none => none
    | some r2 =>
      match wsSpan (fun c => c = '\n' || c = '[') r2 with
      | some (_ + 1, g) => some g
      | _ => none

/-- Education tier 2 matcher.  Returns (degree-and-field, school). -/
def eduF2 (l : List Char) : Option (List Char × List Char) :=
  lazyDot eduF2Tail l

/-- Education tier 3 matcher `^\[([^\]]+)\]\(([^\)]*)\)`.  Returns
(label, url, rest of the entry after the match). -/
def eduF3 (l : List Char) : Option (List Char × List Char × List Char) :=
  match l with
  | '[' :: r =>
    match r.takeWhile (fun c => c != ']'), r.dropWhile (fun c => c != ']') with
    | [], _ => none
    | lbl, ']' :: '(' :: r2 =>
      match r2.dropWhile (fun c => c != ')') with
      | ')' :: rest => some (lbl, r2.takeWhile (fun c => c != ')'), rest)
      | _ => none
    | _, _ => none
  | _ => none

/-- Education tier 4 matcher `^([^\n]+)`: the first line, if non-empty. -/
def eduF4 (l : List Char) : Option (List Char) :=
  match l.takeWhile (fun c => c != '\n') with
  | [] => none
  | g => some g

/-- First character is `-`, `•` or a digit (the `/^[-•\d]/` test of the
tier-3 degree scan). -/
def startsBulletDigit : List Char → Bool
  | c :: _ => c = '-' || c.val = 0x2022 || c.isDigit
  | [] => false

/-- Split one descriptive line on `,` and `|`, trim the parts and drop
empty ones; the first part is the degree, the rest joined with `", "` is
the field of study (tier-3 heuristic). -/
def eduDegLine (line : List Char) : Option (List Char) × Option (List Char) :=
  match ((splitPred (fun c => c = ',' || c = '|') line).map jsTrimL).filter
      (fun p => !p.isEmpty) with
  | [] => (none, none)
  | p :: ps =>
    (some p, if ps.isEmpty then none else some (List.intercalate (", ".data) ps))

/-- Scan the trimmed non-empty lines after a tier-3 link for the first
line of length > 2 not starting with a bullet or digit. -/
def eduDegGo : List (List Char) → Option (List Char) × Option (List Char)
  | [] => (none, none)
  | line :: ls =>
    if 2 < line.length && !startsBulletDigit line then eduDegLine line
    else eduDegGo ls

/-- The tier-3 degree/field recovery from the entry text after the link. -/
def eduDegreeScan (rest : List Char) : Option (List Char) × Option (List Char) :=
  eduDegGo (((splitPred (fun c => c = '\n') rest).map jsTrimL).filter
    (fun s => !s.isEmpty))

/-- Split a trimmed degree-and-field capture on `"||"` if present, else
on `","`, else treat it as a degree only (tiers 1 and 2). -/
def splitDF (df : List Char) : Option (List Char) × Option (List Char) :=
  if hasSub ("||".data) df then
    match (splitLit ("||".data) df).map jsTrimL with
    | p :: ps => (some p, some (List.intercalate (", ".data) ps))
    | [] => (none, none)
  else if hasSub (",".data) df then
    match (splitLit (",".data) df).map jsTrimL with
    | p :: ps => (some p, some (List.intercalate (", ".data) ps))
    | [] => (none, none)
  else (some df, none)

/-! ## Date, cause, description and association extractors -/

/-- `\d{4}` at the current position. -/
def year4 (l : List Char) : Option (List Char) :=
  match l with
  | p :: q :: s :: t :: _ =>
    if p.isDigit && q.isDigit && s.isDigit && t.isDigit then some [p, q, s, t]
    else none
  | _ => none

/-- `Present` case-insensitively at the current position (returns the
text as written). -/
def presentAt (l : List Char) : Option (List Char) :=
  match dropLitCI ("Present".data) l with
  | some _ => some (l.take 7)
  | none => none

/-- The year-range pattern `(\d{4})\s*[-–]\s*(\d{4}|Present)` (with `/i`)
at the current position; returns the whole matched text. -/
def dateTail (l : List Char) : Option (List Char) :=
  match year4 l with
  | none => none
  | some y1 =>
    match (l.drop 4).dropWhile wsChar with
    | e :: r2 =>
      if e = '-' || e.val = 0x2013 then
        match year4 (r2.dropWhile wsChar) with
        | some y2 =>
          some (y1 ++ (l.drop 4).takeWhile wsChar ++ [e] ++ r2.takeWhile wsChar ++ y2)
        | none =>
          match presentAt (r2.dropWhile wsChar) with
          | some p =>
            some (y1 ++ (l.drop 4).takeWhile wsChar ++ [e] ++ r2.takeWhile wsChar ++ p)
          | none => none
      else none
    | [] => none

/-- Leftmost match of the year-range pattern. -/
def dateScan : List Char → Option (List Char)
  | [] => none
  | l@(_ :: rest) =>
    match dateTail l with
    | some m => some m
    | none => dateScan rest

def dateLabels : List (List Char) := ["Date".data, "Duration".data]

/-- `(?:Date|Duration):\s*([^\n]+)` (with `/i`) at the current position;
returns the whole matched text (`match[0]`). -/
def labelDateTail (l : List Char) : Option (List Char) :=
  match tryLabels dateLabels l with
  | some (taken, rest) =>
    match wsSpan (fun c => c = '\n') rest with
    | some (j, g) => some (taken ++ rest.take j ++ g)
    | none => none
  | none => none

/-- Leftmost match of the labelled date pattern. -/
def labelDateScan : List Char → Option (List Char)
  | [] => none
  | l@(_ :: rest) =>
    match labelDateTail l with
    | some m => some m
    | none => labelDateScan rest

/-- Project/volunteering date range: the year-range pattern, else the
labelled form; the matched text is trimmed. -/
def dateOrLabeled (entry : List Char) : Option String :=
  match dateScan entry with
  | some m => some (String.mk (jsTrimL m))
  | none =>
    match labelDateScan entry with
    | some m => some (String.mk (jsTrimL m))
    | none => none

def causeLabels : List (List Char) := ["Cause".data, "Focus".data]

/-- `(?:Cause|Focus):\s*([^\n]+)` (with `/i`) at the current position;
returns the capture. -/
def causeTail (l : List Char) : Option (List Char) :=
  match tryLabels causeLabels l with
  | some (_, rest) =>
    match wsSpan (fun c => c = '\n') rest with
    | some (_, g) => some g
    | none => none
  | none => none

/-- Leftmost match of the cause pattern. -/
def causeScan : List Char → Option (List Char)
  | [] => none
  | l@(_ :: rest) =>
    match causeTail l with
    | some m => some m
    | none => causeScan rest

def assocLabels : List (List Char) := ["Associated with".data, "At".data, "For".data]

/-- The `\[?([^\]\n]+)\]?` part of the association pattern at offset `j`
into the whitespace run: the optional bracket is consumed greedily, and
if the capture after it would be empty the bracket itself starts the
capture. -/
def assocAt (l : List Char) (j : Nat) : Option (List Char) :=
  match l.drop j with
  | [] => none
  | '[' :: rest =>
    match rest.takeWhile (fun c => !(c = ']' || c = '\n')) with
    | [] => some ['[']
    | g => some g
  | c :: _ =>
    if c = ']' || c = '\n' then none
    else some ((l.drop j).takeWhile (fun c => !(c = ']' || c = '\n')))

/-- Backtracking over the `\s*` of the association pattern. -/
def assocGo (l : List Char) : Nat → Option (List Char)
  | 0 => assocAt l 0
  | j + 1 =>
    match assocAt l (j + 1) with
    | some g => some g
    | none => assocGo l j

/-- `(?:Associated with|At|For):\s*\[?([^\]\n]+)\]?` (with `/i`) at the
current position; returns the capture. -/
def assocTail (l : List Char) : Option (List Char) :=
  match tryLabels assocLabels l with
  | some (_, rest) => assocGo rest (rest.takeWhile wsChar).length
  | none => none

/-- Leftmost match of the association pattern. -/
def assocScan : List Char → Option (List Char)
  | [] => none
  | l@(_ :: rest) =>
    match assocTail l with
    | some m => some m
    | none => assocScan rest

/-- The `\s*([^-\n][^\n]+)` part of the description pattern at offset
`j`: one character that is neither `-` nor a newline, then at least one
more non-newline character. -/
def descAt (l : List Char) (j : Nat) : Option (List Char) :=
  match l.drop j with
  | [] => none
  | c :: rest =>
    if c = '-' || c = '\n' then none
    else
      match rest.takeWhile (fun x => x != '\n') with
      | [] => none
      | tail => some (c :: tail)

/-- Backtracking over the `\s*` of the description pattern. -/
def descGo (l : List Char) : Nat → Option (List Char)
  | 0 => descAt l 0
  | j + 1 =>
    match descAt l (j + 1) with
    | some g => some g
    | none => descGo l j

/-- `\s*([^-\n][^\n]+)` after a newline. -/
def descTail (l : List Char) : Option (List Char) :=
  descGo l (l.takeWhile wsChar).length

/-- Leftmost match of the description pattern `\n\s*([^-\n][^\n]+)`:
only positions holding a newline can start a match. -/
def descScan : List Char → Option (List Char)
  | '\n' :: rest =>
    (match descTail rest with
     | some g => some g
     | none => descScan rest)
  | _ :: rest => descScan rest
  | [] => none

/-! ## matchAll scanners (skills and interests) -/

/-- JavaScript `matchAll`: scan left to right; on a match emit the
capture and continue after the whole match, otherwise advance one
character.  Fuel (initially the input length) guards termination; every
separator used consumes at least one character per match. -/
def scanAll (tail : List Char → Option (List Char × List Char)) :
    Nat → List Char → List (List Char)
  | 0, _ => []
  | _ + 1, [] => []
  | fuel + 1, l@(_ :: rest) =>
    match tail l with
    | some (g, r) => g :: scanAll tail fuel r
    | none => scanAll tail fuel rest

/-- A bullet marker character of `[-•*]`. -/
def bulletMarker (c : Char) : Bool :=
  c = '-' || c.val = 0x2022 || c = '*'

/-- One match of the skills bullet pattern `[-•*]\s*([^\n]+)` at the
current position; returns the capture and the rest after the match. -/
def skillBulletTail (l : List Char) : Option (List Char × List Char) :=
  match l with
  | [] => none
  | c :: rest =>
    if bulletMarker c then
      match wsSpan (fun x => x = '\n') rest with
      | some (j, g) => some (g, rest.drop (j + g.length))
      | none => none
    else none

/-- One match of the interests bullet pattern `[-•*]\s*([^\n\[]+)`. -/
def interestBulletTail (l : List Char) : Option (List Char × List Char) :=
  match l with
  | [] => none
  | c :: rest =>
    if bulletMarker c then
      match wsSpan (fun x => x = '\n' || x = '[') rest with
      | some (j, g) => some (g, rest.drop (j + g.length))
      | none => none
    else none

/-- One match of the interests link pattern `\[([^\]]+)\]\([^\)]+\)`;
returns the label capture and the rest after the match. -/
def linkTail (l : List Char) : Option (List Char × List Char) :=
  match l with
  | '[' :: r =>
    match r.takeWhile (fun c => c != ']'), r.dropWhile (fun c => c != ']') with
    | [], _ => none
    | lbl, ']' :: '(' :: r2 =>
      match r2.takeWhile (fun c => c != ')'), r2.dropWhile (fun c => c != ')') with
      | [], _ => none
      | _, ')' :: rest => some (lbl, rest)
      | _, _ => none
    | _, _ => none
  | _ => none

/-- First character is `#` (the `startsWith("#")` header test). -/
def headIsHash : List Char → Bool
  | '#' :: _ => true
  | _ => false

/-! ## The six section parsers -/

/-- Experience: `"<title> at <company>"`, linked matcher first, then the
plain one; the joined string is emitted, the url (if any) discarded. -/
def expOfEntry (entry : List Char) : Option String :=
  match lazyDot expLinkedTail entry with
  | some (t, lbl, _) => some (String.mk (jsTrimL t ++ " at ".data ++ jsTrimL lbl))
  | none =>
    match lazyDot expPlainTail entry with
    | some (t, comp) => some (String.mk (jsTrimL t ++ " at ".data ++ jsTrimL comp))
    | none => none

def parseWorkExperience (text : String) : List String :=
  match findSection expAliases text.data with
  | none => []
  | some body => (entryBlocks expSep body).filterMap expOfEntry

/-- The final normalization of `schoolUrl`: an empty url is absent. -/
def normUrl : Option (List Char) → Option String
  | some u => if u.isEmpty then none else some (String.mk u)
  | none => none

/-- Education fields recovered by tier 1 (school from the link label,
url from the link target, degree/field split from the leading capture). -/
def eduFieldsF1 : List Char × List Char × List Char →
    List Char × Option (List Char) × Option (List Char) × Option (List Char)
  | (df, lbl, url) =>
    (jsTrimL lbl, if url.isEmpty then none else some url,
     (splitDF (jsTrimL df)).1, (splitDF (jsTrimL df)).2)

/-- Education fields recovered by tier 2 (plain-text school). -/
def eduFieldsF2 : List Char × List Char →
    List Char × Option (List Char) × Option (List Char) × Option (List Char)
  | (df, sch) =>
    (jsTrimL sch, none, (splitDF (jsTrimL df)).1, (splitDF (jsTrimL df)).2)

/-- Education fields recovered by tier 3 (link only, degree scanned from
the following lines). -/
def eduFieldsF3 : List Char × List Char × List Char →
    List Char × Option (List Char) × Option (List Char) × Option (List Char)
  | (lbl, url, rest) =>
    (jsTrimL lbl, if url.isEmpty then none else some url,
     (eduDegreeScan rest).1, (eduDegreeScan rest).2)

/-- Education fields recovered by tier 4 (first line as plain school). -/
def eduFieldsF4 : Option (List Char) →
    List Char × Option (List Char) × Option (List Char) × Option (List Char)
  | some line => (jsTrimL line, none, none, none)
  | none => ([], none, none, none)

/-- The ordered four-tier chain of education matchers. -/
def eduFields (entry : List Char) :
    List Char × Option (List Char) × Option (List Char) × Option (List Char) :=
  match eduF1 entry with
  | some r => eduFieldsF1 r
  | none =>
    match eduF2 entry with
    | some r => eduFieldsF2 r
    | none =>
      match eduF3 entry with
      | some r => eduFieldsF3 r
      | none => eduFieldsF4 (eduF4 entry)

/-- Assemble one education entry: an empty school drops the entry, the
date range is extracted from the whole entry regardless of tier, and an
empty url is normalized to absent. -/
def mkEducation (entry : List Char) :
    List Char × Option (List Char) × Option (List Char) × Option (List Char) →
    Option EducationEntry
  | (sch, url, deg, fld) =>
    if sch.isEmpty then none
    else some
      { school := String.mk sch
        degree := deg.map String.mk
        fieldOfStudy := fld.map String.mk
        dateRange := (dateScan entry).map String.mk
        schoolUrl := normUrl url }

def educationOfEntry (entry : List Char) : Option EducationEntry :=
  mkEducation entry (eduFields entry)

def parseEducation (text : String) : List EducationEntry :=
  match findSection eduAliases text.data with
  | none => []
  | some body => (entryBlocks eduSep body).filterMap educationOfEntry

/-- The first-line project name `^([^\n\[]+)`, else the link-label name
`^\[([^\]]+)\]`. -/
def projNameRaw (entry : List Char) : Option (List Char) :=
  match entry.takeWhile (fun c => !(c = '\n' || c = '[')) with
  | [] =>
    (match entry with
     | '[' :: r =>
       (match r.takeWhile (fun c => c != ']'), r.dropWhile (fun c => c != ']') with
        | [], _ => none
        | lbl, ']' :: _ => some lbl
        | _, _ => none)
     | _ => none)
  | g => some g

/-- Assemble one project entry: an empty name drops the entry. -/
def mkProject (entry : List Char) (nm : List Char) : Option ProjectEntry :=
  if nm.isEmpty then none
  else some
    { name := String.mk nm
      description := (descScan entry).map (fun d => String.mk (jsTrimL d))
      dateRange := dateOrLabeled entry
      associatedWith := (assocScan entry).map (fun a => String.mk (jsTrimL a)) }

def projOfEntry (entry : List Char) : Option ProjectEntry :=
  match projNameRaw entry with
  | none => none
  | some raw => mkProject entry (stripBold (jsTrimL raw))

def parseProjects (text : String) : List ProjectEntry :=
  match findSection projAliases text.data with
  | none => []
  | some body => (entryBlocks pvSep body).filterMap projOfEntry

/-- Assemble one volunteering entry: an empty role or organization drops
the entry. -/
def mkVolunteer (entry : List Char) (role org : List Char)
    (url : Option (List Char)) : Option VolunteerEntry :=
  if role.isEmpty || org.isEmpty then none
  else some
    { role := String.mk role
      organization := String.mk org
      cause := (causeScan entry).map (fun c => String.mk (jsTrimL c))
      dateRange := dateOrLabeled entry
      organizationUrl := url.map String.mk }

/-- Volunteering: linked matcher first (keeping the url), then the plain
one (role bold-stripped). -/
def volOfEntry (entry : List Char) : Option VolunteerEntry :=
  match lazyDot volLinkedTail entry with
  | some (t, lbl, url) => mkVolunteer entry (jsTrimL t) (jsTrimL lbl) (some url)
  | none =>
    match lazyDot expPlainTail entry with
    | some (t, comp) => mkVolunteer entry (stripBold (jsTrimL t)) (jsTrimL comp) none
    | none => none

def parseVolunteering (text : String) : List VolunteerEntry :=
  match findSection volAliases text.data with
  | none => []
  | some body => (entryBlocks pvSep body).filterMap volOfEntry

/-- The bulleted-line pass of the skills extractor. -/
def skillsRaw (body : List Char) : List (List Char) :=
  (scanAll skillBulletTail body.length body).filterMap fun g =>
    match stripBold (jsTrimL g) with
    | [] => none
    | s => if headIsHash s then none else some s

/-- The comma/newline fallback of the skills extractor. -/
def skillsFallback (body : List Char) : List (List Char) :=
  ((splitPred (fun c => c = ',' || c = '\n') body).map jsTrimL).filter
    (fun s => !s.isEmpty && !headIsHash s)

/-- The candidate skills before deduplication: the bulleted lines, or
(only when that pass found nothing) the comma/newline fragments. -/
def skillCandidates (body : List Char) : List (List Char) :=
  match skillsRaw body with
  | [] => skillsFallback body
  | l => l

def parseSkills (text : String) : List String :=
  match findSection skillsAliases text.data with
  | none => []
  | some body =>
    ((dedupFirst (skillCandidates body)).filter (fun s => !s.isEmpty)).map String.mk

/-- The candidate interests before deduplication: the labels of every
markdown link, then every bulleted line. -/
def interestCandidates (body : List Char) : List (List Char) :=
  ((scanAll linkTail body.length body).filterMap fun g =>
    match jsTrimL g with
    | [] => none
    | s => some s) ++
  ((scanAll interestBulletTail body.length body).filterMap fun g =>
    match stripBold (jsTrimL g) with
    | [] => none
    | s => if headIsHash s then none else some s)

def parseInterests (text : String) : List String :=
  match findSection interestsAliases text.data with
  | none => []
  | some body => (dedupFirst (interestCandidates body)).map String.mk

/-! ## Profile assembler -/

/-- `text.split("\n").filter(l => l.trim())`: the lines with visible
content (kept untrimmed). -/
def visLines (text : String) : List (List Char) :=
  (splitPred (fun c => c = '\n') text.data).filter (fun l => !(jsTrimL l).isEmpty)

/-- The headline heuristic of `scrapeLinkedInProfile`: if there are at
least two visible lines and the first contains the author name, the
headline is the second line trimmed, else the first line trimmed.  With
no visible line the source evaluates `lines[0].trim()` on `undefined`
and throws; this is `none`. -/
def headlineOf (text name : String) : Option String :=
  match visLines text with
  | [] => none
  | [l0] => some (String.mk (jsTrimL l0))
  | l0 :: l1 :: _ =>
    if hasSub name.data l0 then some (String.mk (jsTrimL l1))
    else some (String.mk (jsTrimL l0))

/-- The about section: trimmed body of the first `About me`/`About`/
`Summary` section, or the empty string. -/
def aboutOf (text : String) : String :=
  match findSection aboutAliases text.data with
  | none => ""
  | some b => String.mk (jsTrimL b)

/-- The parsing core of `scrapeLinkedInProfile` applied to the fetched
`text` and `author` metadata; `none` models the thrown `TypeError` of
the headline heuristic. -/
def parseProfile (text name : String) : Option ProfileData :=
  match headlineOf text name with
  | none => none
  | some h =>
    some
      { name := name
        headline := h
        about := aboutOf text
        experience := parseWorkExperience text
        education := parseEducation text
        projects := parseProjects text
        volunteering := parseVolunteering text
        skills := parseSkills text
        interests := parseInterests text }

/-! ## Candidate lists exposed for the deduplication law -/

/-- The pre-deduplication skill candidates of a document. -/
def skillCandidateStrings (text : String) : List String :=
  match findSection skillsAliases text.data with
  | none => []
  | some body => (skillCandidates body).map String.mk

/-- The pre-deduplication interest candidates of a document. -/
def interestCandidateStrings (text : String) : List String :=
  match findSection interestsAliases text.data with
  | none => []
  | some body => (interestCandidates body).map String.mk

/-! ## Helper lemmas -/

theorem stringMk_injective : Function.Injective String.mk := by
  intro a b h
  injection h

theorem dedupFirstGo_sublist {α : Type} [DecidableEq α] (l : List α) :
    ∀ seen, List.Sublist (dedupFirstGo seen l) l := by
  induction l with
  | nil => intro seen; simp [dedupFirstGo]
  | cons x xs ih =>
    intro seen
    simp only [dedupFirstGo]
    split
    · exact (ih seen).cons x
    · exact (ih (x :: seen)).cons₂ x

theorem dedupFirstGo_notin_seen {α : Type} [DecidableEq α] (l : List α) :
    ∀ seen y, y ∈ dedupFirstGo seen l → y ∉ seen := by
  induction l with
  | nil => intro seen y h; simp [dedupFirstGo] at h
  | cons x xs ih =>
    intro seen y h
    simp only [dedupFirstGo] at h
    split at h
    · exact ih seen y h
    · rcases List.mem_cons.mp h with rfl | h2
      · assumption
      · intro hy
        exact ih (x :: seen) y h2 (List.mem_cons_of_mem x hy)

theorem dedupFirstGo_nodup {α : Type} [DecidableEq α] (l : List α) :
    ∀ seen, (dedupFirstGo seen l).Nodup := by
  induction l with
  | nil => intro seen; simp [dedupFirstGo]
  | cons x xs ih =>
    intro seen
    simp only [dedupFirstGo]
    split
    · exact ih seen
    · exact List.nodup_cons.mpr
        ⟨fun hx => dedupFirstGo_notin_seen xs (x :: seen) x hx (List.mem_cons_self x seen),
         ih (x :: seen)⟩

theorem mem_dedupFirstGo {α : Type} [DecidableEq α] (l : List α) :
    ∀ seen y, y ∈ l → y ∉ seen → y ∈ dedupFirstGo seen l := by
  induction l with
  | nil => intro seen y h _; simp at h
  | cons x xs ih =>
    intro seen y hy hns
    simp only [dedupFirstGo]
    split
    · rcases List.mem_cons.mp hy with rfl | h2
      · exact absurd (by assumption) hns
      · exact ih seen y h2 hns
    · rcases List.mem_cons.mp hy with rfl | h2
      · exact List.mem_cons_self y _
      · by_cases hxy : y = x
        · subst hxy; exact List.mem_cons_self y _
        · refine List.mem_cons_of_mem x (ih (x :: seen) y h2 ?_)
          simp [hns, hxy]

theorem dedupFirst_sublist {α : Type} [DecidableEq α] (l : List α) :
    List.Sublist (dedupFirst l) l :=
  dedupFirstGo_sublist l []

theorem dedupFirst_nodup {α : Type} [DecidableEq α] (l : List α) :
    (dedupFirst l).Nodup :=
  dedupFirstGo_nodup l []

theorem mem_dedupFirst {α : Type} [DecidableEq α] {l : List α} {y : α}
    (h : y ∈ l) : y ∈ dedupFirst l :=
  mem_dedupFirstGo l [] y h (by simp)

theorem splitSepGo_of_not_occurs (sep : Bool → List Char → Option (List Char)) :
    ∀ (l : List Char) (fuel : Nat) (first : Bool) (acc : List Char),
      sepOccursGo sep first l = false →
      splitSepGo sep fuel first acc l = [acc.reverse ++ l] := by
  intro l
  induction l with
  | nil =>
    intro fuel first acc h
    cases fuel with
    | zero => rfl
    | succ fuel =>
      simp only [sepOccursGo] at h
      simp only [splitSepGo]
      cases hs : sep first [] with
      | none => simp
      | some r => rw [hs] at h; simp at h
  | cons c rest ih =>
    intro fuel first acc h
    simp only [sepOccursGo, Bool.or_eq_false_iff] at h
    obtain ⟨h1, h2⟩ := h
    cases fuel with
    | zero => rfl
    | succ fuel =>
      simp only [splitSepGo]
      cases hs : sep first (c :: rest) with
      | none =>
        rw [ih fuel false (c :: acc) h2]
        simp
      | some r => rw [hs] at h1; simp at h1

theorem stringMk_ne_empty {l : List Char} (h : ¬l.isEmpty = true) :
    String.mk l ≠ "" := by
  intro hc
  have hd : l = [] := congrArg String.data hc
  simp [hd] at h

theorem mkEducation_school_ne (b : List Char)
    (f : List Char × Option (List Char) × Option (List Char) × Option (List Char))
    (e : EducationEntry) (h : mkEducation b f = some e) : e.school ≠ "" := by
  obtain ⟨sch, url, deg, fld⟩ := f
  simp only [mkEducation] at h
  split at h
  · exact absurd h (by simp)
  · rw [← Option.some.inj h]
    exact stringMk_ne_empty (by assumption)

theorem educationOfEntry_school_ne (b : List Char) (e : EducationEntry)
    (h : educationOfEntry b = some e) : e.school ≠ "" :=
  mkEducation_school_ne b (eduFields b) e h

theorem mkEducation_schoolUrl_ne (b : List Char)
    (f : List Char × Option (List Char) × Option (List Char) × Option (List Char))
    (e : EducationEntry) (u : String)
    (h : mkEducation b f = some e) (hu : e.schoolUrl = some u) : u ≠ "" := by
  obtain ⟨sch, url, deg, fld⟩ := f
  simp only [mkEducation] at h
  split at h
  · exact absurd h (by simp)
  · rw [← Option.some.inj h] at hu
    cases url with
    | none => simp [normUrl] at hu
    | some u2 =>
      simp only [normUrl] at hu
      split at hu
      · exact absurd hu (by simp)
      · rw [← Option.some.inj hu]
        exact stringMk_ne_empty (by assumption)

theorem mkVolunteer_fields_ne (b role org : List Char) (url : Option (List Char))
    (v : VolunteerEntry) (h : mkVolunteer b role org url = some v) :
    v.role ≠ "" ∧ v.organization ≠ "" := by
  simp only [mkVolunteer] at h
  split at h
  · exact absurd h (by simp)
  · rw [← Option.some.inj h]
    rename_i hro
    rw [Bool.or_eq_true_iff] at hro
    push_neg at hro
    exact ⟨stringMk_ne_empty (by simpa using hro.1),
           stringMk_ne_empty (by simpa using hro.2)⟩

theorem volOfEntry_fields_ne (b : List Char) (v : VolunteerEntry)
    (h : volOfEntry b = some v) : v.role ≠ "" ∧ v.organization ≠ "" := by
  simp only [volOfEntry] at h
  cases h1 : lazyDot volLinkedTail b with
  | some r => rw [h1] at h; exact mkVolunteer_fields_ne b _ _ _ v h
  | none =>
    rw [h1] at h
    cases h2 : lazyDot expPlainTail b with
    | some r => rw [h2] at h; exact mkVolunteer_fields_ne b _ _ _ v h
    | none => rw [h2] at h; exact absurd h (by simp)

theorem mkProject_name_ne (b nm : List Char) (p : ProjectEntry)
    (h : mkProject b nm = some p) : p.name ≠ "" := by
  simp only [mkProject] at h
  split at h
  · exact absurd h (by simp)
  · rw [← Option.some.inj h]
    exact stringMk_ne_empty (by assumption)

theorem projOfEntry_name_ne (b : List Char) (p : ProjectEntry)
    (h : projOfEntry b = some p) : p.name ≠ "" := by
  simp only [projOfEntry] at h
  cases h1 : projNameRaw b with
  | none => rw [h1] at h; exact absurd h (by simp)
  | some raw => rw [h1] at h; exact mkProject_name_ne b _ p h

theorem skillsRaw_ne_nil (body : List Char) :
    ∀ s ∈ skillsRaw body, ¬s.isEmpty = true := by
  intro s hs
  simp only [skillsRaw, List.mem_filterMap] at hs
  obtain ⟨g, _, heq⟩ := hs
  cases h : stripBold (jsTrimL g) with
  | nil => rw [h] at heq; exact absurd heq (by simp)
  | cons c cs =>
    rw [h] at heq
    split at heq
    · exact absurd heq (by simp)
    · split at heq
      · exact absurd heq (by simp)
      · rw [← Option.some.inj heq]; simp

theorem skillsFallback_ne_nil (body : List Char) :
    ∀ s ∈ skillsFallback body, ¬s.isEmpty = true := by
  intro s hs
  simp only [skillsFallback, List.mem_filter] at hs
  have := hs.2
  simp only [Bool.and_eq_true, Bool.not_eq_true'] at this
  simp [this.1]

theorem skillCandidates_ne_nil (body : List Char) :
    ∀ s ∈ skillCandidates body, ¬s.isEmpty = true := by
  intro s hs
  simp only [skillCandidates] at hs
  cases h : skillsRaw body with
  | nil => rw [h] at hs; exact skillsFallback_ne_nil body s hs
  | cons a as => rw [h] at hs; exact skillsRaw_ne_nil body s (h ▸ hs)

theorem parseSkills_nodup (text : String) : (parseSkills text).Nodup := by
  unfold parseSkills
  cases h : findSection skillsAliases text.data with
  | none => simp
  | some body =>
    exact ((dedupFirst_nodup _).filter _).map stringMk_injective

theorem parseInterests_nodup (text : String) : (parseInterests text).Nodup := by
  unfold parseInterests
  cases h : findSection interestsAliases text.data with
  | none => simp
  | some body => exact (dedupFirst_nodup _).map stringMk_injective

theorem parseSkills_sublist (text : String) :
    List.Sublist (parseSkills text) (skillCandidateStrings text) := by
  unfold parseSkills skillCandidateStrings
  cases h : findSection skillsAliases text.data with
  | none => simp
  | some body =>
    exact (((List.filter_sublist _).trans (dedupFirst_sublist _)).map String.mk)

theorem parseInterests_sublist (text : String) :
    List.Sublist (parseInterests text) (interestCandidateStrings text) := by
  unfold parseInterests interestCandidateStrings
  cases h : findSection interestsAliases text.data with
  | none => simp
  | some body => exact ((dedupFirst_sublist _).map String.mk)

theorem mem_parseSkills (text : String) :
    ∀ x ∈ skillCandidateStrings text, x ∈ parseSkills text := by
  intro x hx
  unfold skillCandidateStrings at hx
  unfold parseSkills
  cases h : findSection skillsAliases text.data with
  | none => rw [h] at hx; simp at hx
  | some body =>
    rw [h] at hx
    rcases List.mem_map.mp hx with ⟨c, hc, rfl⟩
    refine List.mem_map_of_mem String.mk (List.mem_filter.mpr ⟨mem_dedupFirst hc, ?_⟩)
    simpa using skillCandidates_ne_nil body c hc

theorem mem_parseInterests (text : String) :
    ∀ x ∈ interestCandidateStrings text, x ∈ parseInterests text := by
  intro x hx
  unfold interestCandidateStrings at hx
  unfold parseInterests
  cases h : findSection interestsAliases text.data with
  | none => rw [h] at hx; simp at hx
  | some body =>
    rw [h] at hx
    rcases List.mem_map.mp hx with ⟨c, hc, rfl⟩
    exact List.mem_map_of_mem String.mk (mem_dedupFirst hc)

/-! ## The claims -/

/-- C1: the claim asserts the composed parse is total over every input
string, including the empty string.  It is not: with no visible line the
source's headline heuristic evaluates `lines[0].trim()` on `undefined`
and throws a `TypeError`; the model returns `none` (instead of a
well-formed record) for the empty document, for any author name. -/
theorem c1_parse_throws_on_empty_input (name : String) :
    parseProfile "" name = none := rfl

/-- C2 counterexample: the experience section body
`"Engineer at Acme"` contains no `"- ### "` entry marker, yet the
splitter returns the whole body as one giant entry block and the section
emits one parsed entry — not zero. -/
theorem c2_counterexample :
    sepOccursGo expSep true ("Engineer at Acme".data) = false ∧
    splitSep expSep ("Engineer at Acme".data) = [("Engineer at Acme".data)] ∧
    parseWorkExperience "## Experience\nEngineer at Acme" = ["Engineer at Acme"] ∧
    parseWorkExperience "## Experience\nEngineer at Acme" ≠ [] :=
  ⟨by decide, by decide, by decide, by decide⟩

/-- C2 (amended): for every section body in which the entry separator
matches nowhere, the splitter keeps the whole body as the single entry
block (zero blocks only when the body is whitespace-only); parsed
entries may still be emitted from that block. -/
theorem c2_markerless_body_is_single_block
    (sep : Bool → List Char → Option (List Char)) (l : List Char)
    (h : sepOccursGo sep true l = false) :
    entryBlocks sep l = if (jsTrimL l).isEmpty then [] else [l] := by
  unfold entryBlocks splitSep
  rw [splitSepGo_of_not_occurs sep l (l.length + 1) true [] h]
  simp only [List.reverse_nil, List.nil_append]
  cases h2 : (jsTrimL l).isEmpty <;> simp [List.filter, h2]

theorem c2_markerless_witness :
    sepOccursGo eduSep true ("just text".data) = false ∧
    entryBlocks eduSep ("just text".data) =
      (if (jsTrimL ("just text".data)).isEmpty then [] else [("just text".data)]) :=
  ⟨by decide, c2_markerless_body_is_single_block eduSep ("just text".data) (by decide)⟩

/-- C3: when an education entry block matches both the tier-1 linked
pattern and the tier-2 plain pattern, the emitted entry is the one built
from the tier-1 captures (`eduFieldsF1`: school from the link label, url
from the link target); the later tiers are skipped. -/
theorem c3_tier1_precedence (e : List Char)
    (r1 : List Char × List Char × List Char) (r2 : List Char × List Char)
    (h1 : eduF1 e = some r1) (h2 : eduF2 e = some r2) :
    educationOfEntry e = mkEducation e (eduFieldsF1 r1) := by
  simp [educationOfEntry, eduFields, h1]

theorem c3_tier1_precedence_witness :
    eduF1 ("B.S. at [MIT](https://x) at Plain".data) =
      some ("B.S.".data, "MIT".data, "https://x".data) ∧
    eduF2 ("B.S. at [MIT](https://x) at Plain".data) =
      some ("B.S. at [MIT](https://x)".data, "Plain".data) ∧
    educationOfEntry ("B.S. at [MIT](https://x) at Plain".data) =
      mkEducation ("B.S. at [MIT](https://x) at Plain".data)
        (eduFieldsF1 ("B.S.".data, "MIT".data, "https://x".data)) :=
  ⟨by decide, by decide,
   c3_tier1_precedence ("B.S. at [MIT](https://x) at Plain".data)
     ("B.S.".data, "MIT".data, "https://x".data)
     ("B.S. at [MIT](https://x)".data, "Plain".data) (by decide) (by decide)⟩

/-- C4: the worked education example — tier-1 link match, `"||"`
degree/field split and year-range date extraction. -/
theorem c4_education_example :
    parseEducation "## Education\n- ### B.S. || Computer Science at [MIT](https://linkedin.com/school/mit) 2015 - 2019\n" =
      [{ school := "MIT", degree := some "B.S.", fieldOfStudy := some "Computer Science",
         dateRange := some "2015 - 2019",
         schoolUrl := some "https://linkedin.com/school/mit" }] := by decide

/-- C5: the deduplication law — skills and interests contain no two
equal elements, are order-preserving subsequences of the pre-dedup
candidate sequences, keep (the first occurrence of) every candidate
value, and the worked example drops the duplicate. -/
theorem c5_dedup_law (text : String) :
    (parseSkills text).Nodup ∧
    (parseInterests text).Nodup ∧
    List.Sublist (parseSkills text) (skillCandidateStrings text) ∧
    List.Sublist (parseInterests text) (interestCandidateStrings text) ∧
    (∀ x, x ∈ skillCandidateStrings text → x ∈ parseSkills text) ∧
    (∀ x, x ∈ interestCandidateStrings text → x ∈ parseInterests text) ∧
    parseSkills "## Skills\n- Python\n- React\n- Python\n" = ["Python", "React"] :=
  ⟨parseSkills_nodup text, parseInterests_nodup text, parseSkills_sublist text,
   parseInterests_sublist text, mem_parseSkills text, mem_parseInterests text,
   by decide⟩

theorem c5_dedup_law_witness :
    ("Python" : String) ∈ parseSkills "## Skills\n- Python\n- React\n- Python\n" ∧
    ("Chess" : String) ∈ parseInterests "## Interests\n- Chess\n- Chess\n" :=
  ⟨(c5_dedup_law "## Skills\n- Python\n- React\n- Python\n").2.2.2.2.1 "Python" (by decide),
   (c5_dedup_law "## Interests\n- Chess\n- Chess\n").2.2.2.2.2.1 "Chess" (by decide)⟩

/-- C6: every emitted education entry has a non-empty school, every
volunteering entry non-empty role and organization, every project entry
a non-empty name; entries whose required fields cannot be recovered are
dropped by the per-entry `filterMap`, which never aborts the rest of the
section. -/
theorem c6_required_fields (text : String) :
    (∀ e, e ∈ parseEducation text → e.school ≠ "") ∧
    (∀ v, v ∈ parseVolunteering text → v.role ≠ "" ∧ v.organization ≠ "") ∧
    (∀ p, p ∈ parseProjects text → p.name ≠ "") := by
  refine ⟨?_, ?_, ?_⟩
  · intro e he
    unfold parseEducation at he
    cases hsec : findSection eduAliases text.data with
    | none => rw [hsec] at he; simp at he
    | some body =>
      rw [hsec] at he
      rcases List.mem_filterMap.mp he with ⟨b, _, hb⟩
      exact educationOfEntry_school_ne b e hb
  · intro v hv
    unfold parseVolunteering at hv
    cases hsec : findSection volAliases text.data with
    | none => rw [hsec] at hv; simp at hv
    | some body =>
      rw [hsec] at hv
      rcases List.mem_filterMap.mp hv with ⟨b, _, hb⟩
      exact volOfEntry_fields_ne b v hb
  · intro p hp
    unfold parseProjects at hp
    cases hsec : findSection projAliases text.data with
    | none => rw [hsec] at hp; simp at hp
    | some body =>
      rw [hsec] at hp
      rcases List.mem_filterMap.mp hp with ⟨b, _, hb⟩
      exact projOfEntry_name_ne b p hb

theorem c6_required_fields_witness :
    ({ school := "Yale", degree := some "B.A.", fieldOfStudy := none, dateRange := none,
       schoolUrl := none } : EducationEntry).school ≠ "" ∧
    ({ role := "Helper", organization := "Org", cause := none, dateRange := none,
       organizationUrl := none } : VolunteerEntry).role ≠ "" ∧
    ({ role := "Helper", organization := "Org", cause := none, dateRange := none,
       organizationUrl := none } : VolunteerEntry).organization ≠ "" ∧
    ({ name := "App", description := none, dateRange := none,
       associatedWith := none } : ProjectEntry).name ≠ "" :=
  ⟨(c6_required_fields "## Education\n- ### B.A. at Yale\n").1 _ (by decide),
   ((c6_required_fields "## Volunteering\n- ### Helper at Org\n").2.1 _ (by decide)).1,
   ((c6_required_fields "## Volunteering\n- ### Helper at Org\n").2.1 _ (by decide)).2,
   (c6_required_fields "## Projects\n- ### App\n").2.2 _ (by decide)⟩

/-- C7: an absent section header yields the empty collection (empty
string for about) for that field, with no failure. -/
theorem c7_absent_section_defaults (text : String) :
    (findSection volAliases text.data = none → parseVolunteering text = []) ∧
    (findSection expAliases text.data = none → parseWorkExperience text = []) ∧
    (findSection eduAliases text.data = none → parseEducation text = []) ∧
    (findSection projAliases text.data = none → parseProjects text = []) ∧
    (findSection skillsAliases text.data = none → parseSkills text = []) ∧
    (findSection interestsAliases text.data = none → parseInterests text = []) ∧
    (findSection aboutAliases text.data = none → aboutOf text = "") := by
  refine ⟨fun h => ?_, fun h => ?_, fun h => ?_, fun h => ?_, fun h => ?_,
          fun h => ?_, fun h => ?_⟩ <;>
    simp only [parseVolunteering, parseWorkExperience, parseEducation, parseProjects,
      parseSkills, parseInterests, aboutOf, h]

theorem c7_absent_section_witness :
    parseVolunteering "a profile with no section headers" = [] ∧
    parseWorkExperience "a profile with no section headers" = [] ∧
    parseEducation "a profile with no section headers" = [] ∧
    parseProjects "a profile with no section headers" = [] ∧
    parseSkills "a profile with no section headers" = [] ∧
    parseInterests "a profile with no section headers" = [] ∧
    aboutOf "a profile with no section headers" = "" :=
  ⟨(c7_absent_section_defaults _).1 (by decide),
   (c7_absent_section_defaults _).2.1 (by decide),
   (c7_absent_section_defaults _).2.2.1 (by decide),
   (c7_absent_section_defaults _).2.2.2.1 (by decide),
   (c7_absent_section_defaults _).2.2.2.2.1 (by decide),
   (c7_absent_section_defaults _).2.2.2.2.2.1 (by decide),
   (c7_absent_section_defaults _).2.2.2.2.2.2 (by decide)⟩

/-- C8 counterexample: the claim says the first pass collects every
bulleted **and every numbered** line.  The body `"1. Python, React\n"`
holds a numbered line, yet the bulleted-line pass (whose markers are
only `-`, `•`, `*`) collects nothing, so the comma/newline fallback runs
and the numbered marker survives inside the first fragment. -/
theorem c8_counterexample :
    findSection skillsAliases ("## Skills\n1. Python, React\n".data) =
      some ("1. Python, React\n".data) ∧
    skillsRaw ("1. Python, React\n".data) = [] ∧
    ("1. Python, React".data) ∈ splitPred (fun c => c = '\n') ("1. Python, React\n".data) ∧
    parseSkills "## Skills\n1. Python, React\n" = ["1. Python", "React"] :=
  ⟨by decide, by decide, by decide, by decide⟩

/-- C8 (amended): the skills extractor first collects every bulleted
line (markers `-`, `•`, `*` only — numbered lines are not collected),
and only when that pass yields nothing does it fall back to splitting
the raw body on commas and newlines. -/
theorem c8_bullets_then_fallback (text : String) (body : List Char)
    (h : findSection skillsAliases text.data = some body) :
    (skillsRaw body ≠ [] →
      parseSkills text =
        ((dedupFirst (skillsRaw body)).filter (fun s => !s.isEmpty)).map String.mk) ∧
    (skillsRaw body = [] →
      parseSkills text =
        ((dedupFirst (skillsFallback body)).filter (fun s => !s.isEmpty)).map String.mk) := by
  constructor
  · intro hb
    simp only [parseSkills, h, skillCandidates]
  · intro hb
    simp only [parseSkills, h, skillCandidates, hb]

theorem c8_bullets_then_fallback_witness :
    skillsRaw ("- A\n".data) ≠ [] ∧
    parseSkills "## Skills\n- A\n" =
      ((dedupFirst (skillsRaw ("- A\n".data))).filter (fun s => !s.isEmpty)).map String.mk :=
  ⟨by decide,
   (c8_bullets_then_fallback "## Skills\n- A\n" ("- A\n".data) (by decide)).1 (by decide)⟩

/-- C9: the positional headline heuristic — with exactly one visible
line the headline is that line trimmed; with at least two, it is the
second line trimmed when the first contains the author name and the
first line trimmed otherwise.  (With zero visible lines the source
throws, see C1.) -/
theorem c9_headline_heuristic (text name : String) :
    (∀ l0, visLines text = [l0] →
      headlineOf text name = some (String.mk (jsTrimL l0))) ∧
    (∀ l0 l1 rest, visLines text = l0 :: l1 :: rest →
      headlineOf text name =
        some (String.mk (jsTrimL (if hasSub name.data l0 then l1 else l0)))) := by
  constructor
  · intro l0 h
    simp [headlineOf, h]
  · intro l0 l1 rest h
    simp only [headlineOf, h]
    by_cases hc : hasSub name.data l0 = true <;> simp [hc]

theorem c9_headline_heuristic_witness :
    headlineOf "Ada Lovelace\nEngineer at X" "Ada" =
      some (String.mk (jsTrimL
        (if hasSub ("Ada".data) ("Ada Lovelace".data) then "Engineer at X".data
         else "Ada Lovelace".data))) :=
  (c9_headline_heuristic "Ada Lovelace\nEngineer at X" "Ada").2
    ("Ada Lovelace".data) ("Engineer at X".data) [] (by decide)

/-- C10: `schoolUrl` is never the empty string — a matched link with an
empty target is normalized to an absent url, as the `"[School]()"`
example shows. -/
theorem c10_schoolUrl_absent_or_nonempty (text : String) :
    (∀ e u, e ∈ parseEducation text → e.schoolUrl = some u → u ≠ "") ∧
    parseEducation "## Education\n- ### B.S. at [School]()\n" =
      [{ school := "School", degree := some "B.S.", fieldOfStudy := none,
         dateRange := none, schoolUrl := none }] := by
  constructor
  · intro e u he hu
    unfold parseEducation at he
    cases hsec : findSection eduAliases text.data with
    | none => rw [hsec] at he; simp at he
    | some body =>
      rw [hsec] at he
      rcases List.mem_filterMap.mp he with ⟨b, _, hb⟩
      exact mkEducation_schoolUrl_ne b (eduFields b) e u hb hu
  · decide

theorem c10_schoolUrl_witness :
    ({ school := "S", degree := some "B.S.", fieldOfStudy := none, dateRange := none,
       schoolUrl := some "https://u" } : EducationEntry) ∈
      parseEducation "## Education\n- ### B.S. at [S](https://u)\n" ∧
    ("https://u" : String) ≠ "" :=
  ⟨by decide,
   (c10_schoolUrl_absent_or_nonempty "## Education\n- ### B.S. at [S](https://u)\n").1
     { school := "S", degree := some "B.S.", fieldOfStudy := none, dateRange := none,
       schoolUrl := some "https://u" } "https://u" (by decide) rfl⟩
